import Mathlib

/-!
Verification development for the EKG-Measure2DB repository.

The embedding translates the two batch pipelines of the repository:
  * `process_measurement_ecg.py` — free-text pipeline: `read_ecg_file`,
    `split_into_segments`, and the orchestration loop `process_ecg_files`;
  * `ptb_xl2csv.py` — structured-database pipeline: the per-record
    processing loop with its `successful` / `failed` / `errors` bookkeeping.

Python machine-level details are embedded as follows: Python `int` is `Int`
(arbitrary precision in the source as well), exact pandas column
arithmetic is carried out in `ℚ`, strings are handled as their character
lists so that every definition evaluates inside the kernel, fallible
operations return `Except`, and console-printed warnings are collected in
explicit lists.
-/

/-- A line of text, as the list of its characters. -/
abbrev Line := List Char

/-- One parsed line of an `ECG_X.txt` file: the `index` and `value`
columns of the DataFrame built by `read_ecg_file` (both Python ints). -/
structure Sample where
  index : Int
  value : Int
deriving DecidableEq, Repr

/-- One row of a segment DataFrame after `split_into_segments` keeps only
the `time` and `value` columns (lines 84-85 of the source). -/
structure TimedSample where
  time : ℚ
  value : Int
deriving DecidableEq, Repr

/-- The whitespace characters stripped by Python's `str.strip()`
(ASCII range). -/
def pyWhitespace : List Char := [' ', '\t', '\n', '\x0b', '\x0c', '\r']

/-- Python `str.strip()`: drop whitespace from both ends. -/
def pyStrip (cs : Line) : Line :=
  ((cs.dropWhile (· ∈ pyWhitespace)).reverse.dropWhile (· ∈ pyWhitespace)).reverse

/-- Python `str.split(sep)` for a one-character separator: split on every
occurrence, keeping empty fields, so that `"".split(';') == ['']`. -/
def splitOnCh (sep : Char) : Line → List Line
  | [] => [[]]
  | c :: rest =>
      let r := splitOnCh sep rest
      if c = sep then [] :: r
      else
        match r with
        | h :: t => (c :: h) :: t
        | [] => [[c]]

/-- Python `str.split(';')`, the delimiter used by `read_ecg_file`. -/
def splitOnSemi : Line → List Line := splitOnCh ';'

/-- Decimal value of an ASCII digit character. -/
def digitVal (c : Char) : Nat := c.toNat - 48

/-- Core of Python `int()` digit parsing: a run of ASCII digits in which a
single underscore may separate two digits ("1_000" parses, "1__0", "_1",
"1_" do not).  Returns the digit characters with underscores removed. -/
def pyDigitsAux : List Char → Option (List Char)
  | [] => some []
  | '_' :: rest =>
      match rest with
      | c :: _ => if c.isDigit then pyDigitsAux rest else none
      | [] => none
  | c :: rest => if c.isDigit then (pyDigitsAux rest).map (c :: ·) else none

/-- Python `int()` digit-run parsing including the requirement that the
run is non-empty and starts with a digit. -/
def pyDigits : List Char → Option Nat
  | [] => none
  | c :: rest =>
      if c.isDigit then
        (pyDigitsAux (c :: rest)).map (·.foldl (fun acc d => 10 * acc + digitVal d) 0)
      else none

/-- Python `int(s)` on a string: strip surrounding whitespace, optional
sign, then a digit run; `none` models `ValueError`. -/
def pyInt (s : Line) : Option Int :=
  match pyStrip s with
  | '+' :: rest => (pyDigits rest).map Int.ofNat
  | '-' :: rest => (pyDigits rest).map (fun n => -(n : Int))
  | cs => (pyDigits cs).map Int.ofNat

/-- One iteration of the parsing loop of `read_ecg_file` (lines 38-48):
the accumulator carries the `data` rows collected so far and the warnings
printed so far.  A non-empty line containing the delimiter is split on
`;`; exactly two fields are required and both must parse as Python ints;
an int-parse failure prints the skip warning (line 48); any other
malformed line is passed over silently. -/
def read_line_step (acc : List Sample × List Line) (rawLine : Line) :
    List Sample × List Line :=
  let line := pyStrip rawLine
  if line ≠ [] ∧ ';' ∈ line then
    match splitOnSemi line with
    | [a, b] =>
        match pyInt a, pyInt b with
        | some idx, some value => (acc.1 ++ [⟨idx, value⟩], acc.2)
        | _, _ => (acc.1, acc.2 ++ [("Warning: Skipping invalid line: ").toList ++ line])
    | _ => acc
  else acc

/-- Lines 33-35 of the source: remove the last line when it is blank. -/
def dropTrailingBlank (lines : List Line) : List Line :=
  match lines with
  | [] => []
  | _ :: _ => if pyStrip (lines.getLastD []) = [] then lines.dropLast else lines

/-- `read_ecg_file` (lines 19-50) over the list of lines returned by
`readlines()`: returns the parsed `(index, value)` rows in file order
together with the list of printed warnings. -/
def read_ecg_file (lines : List Line) : List Sample × List Line :=
  (dropTrailingBlank lines).foldl read_line_step ([], [])

/-- The single sample produced by one line of input, when the line is
retained: the parsing conditions of lines 40-46 of the source collapsed
into a per-line function. -/
def parse_line (rawLine : Line) : Option Sample :=
  let line := pyStrip rawLine
  if line ≠ [] ∧ ';' ∈ line then
    match splitOnSemi line with
    | [a, b] =>
        match pyInt a, pyInt b with
        | some idx, some value => some ⟨idx, value⟩
        | _, _ => none
    | _ => none
  else none

/-- The warning printed for one line of input, if any: only a line that
splits into exactly two `;`-fields with a failing int parse produces one
(line 48 of the source). -/
def warn_line (rawLine : Line) : Option Line :=
  let line := pyStrip rawLine
  if line ≠ [] ∧ ';' ∈ line then
    match splitOnSemi line with
    | [a, b] =>
        match pyInt a, pyInt b with
        | some _, some _ => none
        | _, _ => some (("Warning: Skipping invalid line: ").toList ++ line)
    | _ => none
  else none

/-- The error raised inside `split_into_segments`: Python raises
`ZeroDivisionError` at `total_samples // samples_per_segment` when
`samples_per_segment` is zero; the function performs no other check. -/
inductive SplitError where
  | zeroDivision
deriving DecidableEq, Repr

instance {ε α : Type} [DecidableEq ε] [DecidableEq α] : DecidableEq (Except ε α) := fun a b =>
  match a, b with
  | Except.ok x, Except.ok y =>
      if h : x = y then isTrue (by rw [h]) else isFalse (fun hh => h (Except.ok.inj hh))
  | Except.ok _, Except.error _ => isFalse (fun hh => Except.noConfusion hh)
  | Except.error _, Except.ok _ => isFalse (fun hh => Except.noConfusion hh)
  | Except.error e, Except.error f =>
      if h : e = f then isTrue (by rw [h]) else isFalse (fun hh => h (Except.error.inj hh))

/-- Lines 75-85 of the source applied to one slice `chunk` of the input:
`time = index * (1.0 / sample_frequency)` re-based by subtracting the
first row's time (`time.iloc[0]`), and only the `time` and `value`
columns kept. -/
def mkSegment (sample_frequency : Nat) (chunk : List Sample) : List TimedSample :=
  match chunk with
  | [] => []
  | s0 :: _ =>
      chunk.map (fun s =>
        ⟨(s.index : ℚ) * (1 / (sample_frequency : ℚ))
            - (s0.index : ℚ) * (1 / (sample_frequency : ℚ)), s.value⟩)

/-- `split_into_segments` (lines 53-94): cut `df` into
`total_samples // samples_per_segment` consecutive windows of
`samples_per_segment` rows, compute each window's re-based time column,
and report the count of discarded trailing samples (printed only when
positive, hence the `Option`).  `samples_per_segment = 0` models the
`ZeroDivisionError` of the integer division. -/
def split_into_segments (df : List Sample) (sample_frequency : Nat)
    (segment_duration : Nat) :
    Except SplitError (List (List TimedSample) × Option Nat) :=
  let samples_per_segment := sample_frequency * segment_duration
  if samples_per_segment = 0 then Except.error SplitError.zeroDivision
  else
    let total_samples := df.length
    let num_complete_segments := total_samples / samples_per_segment
    let segments := (List.range num_complete_segments).map
      (fun i => mkSegment sample_frequency
        ((df.drop (i * samples_per_segment)).take samples_per_segment))
    let remaining_samples := total_samples - num_complete_segments * samples_per_segment
    Except.ok (segments, if remaining_samples > 0 then some remaining_samples else none)

/-- Decimal digit characters of a natural number, via an explicit fuel
argument so that the definition is structurally recursive. -/
def natDecimalAux : Nat → Nat → Line
  | 0, _ => []
  | fuel + 1, n => if n < 10 then [Nat.digitChar n]
      else natDecimalAux fuel (n / 10) ++ [Nat.digitChar (n % 10)]

/-- Decimal representation of a natural number. -/
def natDecimal (n : Nat) : Line := natDecimalAux (n + 1) n

/-- Python `f"{n:05d}"`: the decimal digits of `n`, left-padded with `'0'`
to a width of at least five. -/
def pad5 (n : Nat) : Line :=
  List.replicate (5 - (natDecimal n).length) '0' ++ natDecimal n

/-- The name of the CSV file written for the segment that consumed
counter value `n` (line 158 of the source). -/
def segFileName (n : Nat) : Line :=
  ("ecg_").toList ++ pad5 n ++ (".csv").toList

/-- One CSV file written by the free-text pipeline: the counter value it
consumed, the file name derived from it, and the segment rows. -/
structure Output where
  seqNum : Nat
  filename : Line
  data : List TimedSample
deriving DecidableEq, Repr

/-- The mutable state of `process_ecg_files` (lines 126-131): the global
segment counter, the two statistics, the files written so far, and the
messages printed by the per-record `except` handler (line 172). -/
structure PState where
  counter : Nat
  total_segments : Nat
  total_files_processed : Nat
  outputs : List Output
  caught : List Line
deriving DecidableEq, Repr

/-- The per-segment writing loop (lines 157-164): each segment is saved
under the current counter value and the counter is incremented. -/
def writeSegments (st : PState) (segs : List (List TimedSample)) : PState :=
  segs.foldl
    (fun s seg =>
      { s with
        counter := s.counter + 1,
        outputs := s.outputs ++ [⟨s.counter, segFileName s.counter, seg⟩] })
    st

/-- The four ways the body of the `try` block (lines 139-169) can go for
one readable file: skip because the parsed DataFrame is empty (lines
141-143), skip because no complete segment exists (lines 150-152), an
exception raised by `split_into_segments` and caught at line 171, or a
successful write of the produced segments. -/
inductive RecordOutcome where
  | emptySkip
  | errorCaught (msg : Line)
  | noSegmentsSkip
  | written (segs : List (List TimedSample))
deriving DecidableEq, Repr

/-- Classify one record of the free-text pipeline, mirroring the branch
structure of lines 139-152 of the source. -/
def recordOutcome (sample_frequency : Nat) (lines : List Line) : RecordOutcome :=
  let df := (read_ecg_file lines).1
  if df.isEmpty then RecordOutcome.emptySkip
  else
    match split_into_segments df sample_frequency 10 with
    | Except.error SplitError.zeroDivision =>
        RecordOutcome.errorCaught (("ZeroDivisionError").toList)
    | Except.ok (segs, _) =>
        if segs.isEmpty then RecordOutcome.noSegmentsSkip
        else RecordOutcome.written segs

/-- Process one `ECG_*.txt` file (lines 134-172): a file whose read
raises is caught by the `except` handler; otherwise the record is
classified and, on success, its segments are written and the statistics
updated.  The input is the file's lines, or the exception message of a
failed read. -/
def processRecord (sample_frequency : Nat) (st : PState)
    (input : Except Line (List Line)) : PState :=
  match input with
  | Except.error e => { st with caught := st.caught ++ [e] }
  | Except.ok lines =>
      match recordOutcome sample_frequency lines with
      | RecordOutcome.emptySkip => st
      | RecordOutcome.errorCaught m => { st with caught := st.caught ++ [m] }
      | RecordOutcome.noSegmentsSkip => st
      | RecordOutcome.written segs =>
          let st' := writeSegments st segs
          { st' with
            total_segments := st'.total_segments + segs.length,
            total_files_processed := st'.total_files_processed + 1 }

/-- `process_ecg_files` (lines 97-182) over the sorted list of input
files, starting from the zeroed counters of lines 126-131. -/
def process_ecg_files (sample_frequency : Nat)
    (inputs : List (Except Line (List Line))) : PState :=
  inputs.foldl (processRecord sample_frequency) ⟨0, 0, 0, [], []⟩

/-- The observable batch result of the free-text pipeline apart from the
console log: counter, statistics and written files. -/
def PState.obs (st : PState) : Nat × Nat × Nat × List Output :=
  (st.counter, st.total_segments, st.total_files_processed, st.outputs)

/-- The `records_folder` selection of `ptb_xl2csv.py` (lines 19-24),
performed before any record is processed; an unsupported sampling
frequency raises `ValueError`. -/
def records_folder (sample_frequency : Nat) : Except Line Line :=
  if sample_frequency = 500 then Except.ok (("records500").toList)
  else if sample_frequency = 100 then Except.ok (("records100").toList)
  else Except.error ((("Sample frequency ").toList) ++ natDecimal sample_frequency
    ++ ((" not supported. Use 100 or 500.").toList))

/-- `Path(p).stem`: the final path component with its last suffix
removed (a lone leading dot does not count as a suffix separator). -/
def path_stem (p : Line) : Line :=
  let base := (splitOnCh '/' p).getLastD []
  let parts := splitOnCh '.' base
  if parts.length ≤ 1 then base
  else if parts.headD [] = [] ∧ parts.length = 2 then base
  else List.intercalate (['.']) parts.dropLast

/-- The value returned by `wfdb.rdsamp`: the signal matrix (one inner
list per sample instant) and the metadata fields the script uses. -/
structure WfdbResult where
  signal : List (List ℚ)
  sig_name : List Line
  fs : Nat
deriving DecidableEq, Repr

/-- One row of the PTB-XL index joined with the outcome of loading its
signal file: `ecg_id`, the `filename_hr`/`filename_lr` path, and either
the loaded record or the exception message of a failed load. -/
structure PtbRecord where
  ecg_id : Line
  filename_path : Line
  load : Except Line WfdbResult
deriving DecidableEq, Repr

/-- One entry of the `errors` list of `ptb_xl2csv.py` (lines 82-86). -/
structure ErrorEntry where
  record_id : Line
  filename : Line
  error : Line
deriving DecidableEq, Repr

/-- One CSV file written by the structured pipeline (lines 74-76):
named after the source record, one row per sample instant with the time
column first. -/
structure PtbOutput where
  filename : Line
  rows : List (ℚ × List ℚ)
deriving DecidableEq, Repr

/-- The accumulated state of the `ptb_xl2csv.py` record loop
(lines 45-47). -/
structure PtbState where
  successful : Nat
  failed : Nat
  errors : List ErrorEntry
  outputs : List PtbOutput
deriving DecidableEq, Repr

/-- Lines 66-72 of `ptb_xl2csv.py`: the output DataFrame, a time column
`arange(n) / fs` inserted before the signal channels. -/
def df_signal_of (rec : WfdbResult) : List (ℚ × List ℚ) :=
  rec.signal.enum.map (fun p => ((p.1 : ℚ) / (rec.fs : ℚ), p.2))

/-- The body of the record loop of `ptb_xl2csv.py` (lines 49-88): on a
successful load the output CSV is written and `successful` incremented;
on an exception `failed` is incremented and an entry appended to
`errors`. -/
def ptb_process (st : PtbState) (row : PtbRecord) : PtbState :=
  match row.load with
  | Except.ok rec =>
      { st with
        successful := st.successful + 1,
        outputs := st.outputs ++
          [⟨path_stem row.filename_path ++ (".csv").toList, df_signal_of rec⟩] }
  | Except.error e =>
      { st with
        failed := st.failed + 1,
        errors := st.errors ++ [⟨row.ecg_id, row.filename_path, e⟩] }

/-- The full record loop of `ptb_xl2csv.py` starting from the zeroed
counters of lines 45-47. -/
def ptb_run (rows : List PtbRecord) : PtbState :=
  rows.foldl ptb_process ⟨0, 0, [], []⟩

/-- The output produced for a record whose load succeeds (lines 61-76 of
`ptb_xl2csv.py`); the value for a failing record is irrelevant. -/
def goodOutput (row : PtbRecord) : PtbOutput :=
  match row.load with
  | Except.ok rec => ⟨path_stem row.filename_path ++ (".csv").toList, df_signal_of rec⟩
  | Except.error _ => ⟨[], []⟩

/-- A pandas DataFrame value as it exists at some point of
`split_into_segments`: the caller's two-column frame, the three-column
intermediate after the `time` column is assigned (lines 79 and 82), or
the final two-column segment frame (line 85). -/
inductive Cell where
  | raw (df : List Sample)
  | withTime (rows : List (Sample × ℚ))
  | seg (rows : List TimedSample)
deriving DecidableEq, Repr

/-- The store of DataFrame objects: a reference is an index into the
store, and allocation appends. -/
abbrev Heap := List Cell

/-- A reference to a DataFrame object in the store. -/
abbrev Ref := Nat

/-- One iteration of the loop of lines 71-87 of the source, with object
identity made explicit: `df.iloc[start:end].copy()` allocates a fresh
frame (line 75), the two `segment_df['time'] = …` statements update that
fresh frame in place (lines 79 and 82), and the column selection
`segment_df[['time', 'value']]` allocates another fresh frame (line 85)
whose reference is appended to `segments` (line 87). -/
def heapLoopBody (df : List Sample) (sample_frequency k : Nat)
    (st : Heap × List Ref) (i : Nat) : Heap × List Ref :=
  let chunk := (df.drop (i * k)).take k
  let h := st.1
  let q := h.length
  let h1 := h ++ [Cell.raw chunk]
  let h2 := h1.set q (Cell.withTime (chunk.map (fun s =>
      (s, (s.index : ℚ) * (1 / (sample_frequency : ℚ))))))
  let t0 := match chunk with
    | [] => (0 : ℚ)
    | s0 :: _ => (s0.index : ℚ) * (1 / (sample_frequency : ℚ))
  let h3 := h2.set q (Cell.withTime (chunk.map (fun s =>
      (s, (s.index : ℚ) * (1 / (sample_frequency : ℚ)) - t0))))
  let q2 := h3.length
  let h4 := h3 ++ [Cell.seg (mkSegment sample_frequency chunk)]
  (h4, st.2 ++ [q2])

/-- `split_into_segments` over the store: the argument is passed by
reference `p`; a `samples_per_segment` of zero raises before the loop
body runs, leaving the store untouched and returning no segments. -/
def split_into_segments_heap (h : Heap) (p : Ref) (sample_frequency : Nat)
    (segment_duration : Nat) : Heap × List Ref :=
  let k := sample_frequency * segment_duration
  match h[p]? with
  | some (Cell.raw df) =>
      if k = 0 then (h, [])
      else (List.range (df.length / k)).foldl
        (heapLoopBody df sample_frequency k) (h, [])
  | _ => (h, [])

/-- The final contents of the intermediate frame allocated at line 75 of
iteration `i`, after the in-place updates of lines 79 and 82. -/
def midCell (df : List Sample) (sample_frequency k i : Nat) : Cell :=
  let chunk := (df.drop (i * k)).take k
  let t0 := match chunk with
    | [] => (0 : ℚ)
    | s0 :: _ => (s0.index : ℚ) * (1 / (sample_frequency : ℚ))
  Cell.withTime (chunk.map (fun s =>
      (s, (s.index : ℚ) * (1 / (sample_frequency : ℚ)) - t0)))

/-- The segment frame allocated at line 85 of iteration `i`. -/
def outCell (df : List Sample) (sample_frequency k i : Nat) : Cell :=
  Cell.seg (mkSegment sample_frequency ((df.drop (i * k)).take k))

lemma read_line_step_eq (acc : List Sample × List Line) (line : Line) :
    read_line_step acc line =
      (acc.1 ++ (parse_line line).toList, acc.2 ++ (warn_line line).toList) := by
  unfold read_line_step parse_line warn_line
  by_cases hc : pyStrip line ≠ [] ∧ ';' ∈ pyStrip line
  · simp only [if_pos hc]
    rcases hsp : splitOnSemi (pyStrip line) with _ | ⟨a, rest⟩
    · simp
    · rcases rest with _ | ⟨b, rest2⟩
      · simp
      · rcases rest2 with _ | ⟨c, rest3⟩
        · rcases hia : pyInt a with _ | ia <;> rcases hib : pyInt b with _ | ib <;>
            simp [hia, hib]
        · simp
  · simp [if_neg hc]

lemma foldl_read_line_step (ls : List Line) :
    ∀ s w, ls.foldl read_line_step (s, w) =
      (s ++ ls.filterMap parse_line, w ++ ls.filterMap warn_line) := by
  induction ls with
  | nil => intro s w; simp
  | cons l rest ih =>
      intro s w
      simp only [List.foldl_cons, read_line_step_eq, List.filterMap_cons]
      rw [ih]
      rcases hp : parse_line l with _ | x <;> rcases hw : warn_line l with _ | y <;> simp

lemma parse_line_blank {l : Line} (h : pyStrip l = []) : parse_line l = none := by
  simp [parse_line, h]

lemma warn_line_blank {l : Line} (h : pyStrip l = []) : warn_line l = none := by
  simp [warn_line, h]

lemma dropTrailingBlank_concat (init : List Line) (last : Line) :
    dropTrailingBlank (init ++ [last]) =
      if pyStrip last = [] then init else init ++ [last] := by
  have hlastD : (init ++ [last]).getLastD [] = last := by
    simp [List.getLastD_eq_getLast?]
  cases init with
  | nil => simp [dropTrailingBlank]
  | cons x xs =>
      show dropTrailingBlank (x :: (xs ++ [last])) = _
      unfold dropTrailingBlank
      rw [show x :: (xs ++ [last]) = (x :: xs) ++ [last] from rfl, hlastD,
        List.dropLast_concat]
      rfl

lemma read_ecg_file_eq (lines : List Line) :
    read_ecg_file lines =
      (lines.filterMap parse_line, lines.filterMap warn_line) := by
  rcases List.eq_nil_or_concat lines with rfl | ⟨init, last, rfl⟩
  · rfl
  · unfold read_ecg_file
    rw [List.concat_eq_append, dropTrailingBlank_concat]
    by_cases hb : pyStrip last = []
    · rw [if_pos hb, foldl_read_line_step]
      simp [List.filterMap_append, parse_line_blank hb, warn_line_blank hb]
    · rw [if_neg hb, foldl_read_line_step]
      simp

/-- C8: `read_ecg_file` is deterministic — equal file contents yield
identical results — and line retention is position-independent: the
parsed samples are exactly the per-line `parse_line` results in file
order, so whether a line is skipped depends only on that line's own
content, never on its position or on surrounding lines. -/
theorem read_ecg_file_deterministic (lines₁ lines₂ : List Line)
    (h : lines₁ = lines₂) :
    read_ecg_file lines₁ = read_ecg_file lines₂ ∧
    (read_ecg_file lines₁).1 = lines₁.filterMap parse_line := by
  subst h
  exact ⟨rfl, by rw [read_ecg_file_eq]⟩

theorem read_ecg_file_deterministic_witness :
    read_ecg_file [("0;1").toList, ("x").toList] =
      read_ecg_file [("0;1").toList, ("x").toList] ∧
    (read_ecg_file [("0;1").toList, ("x").toList]).1 =
      ([("0;1").toList, ("x").toList]).filterMap parse_line :=
  read_ecg_file_deterministic [("0;1").toList, ("x").toList]
    [("0;1").toList, ("x").toList] rfl

/-- C4 counterexample: the non-empty line `1;2;3` does not split into
exactly two fields on `;`, and `read_ecg_file` skips it, but no warning
is printed — refuting "skips, with a warning, every non-empty line that
does not split into exactly two fields". -/
theorem read_ecg_file_silent_skip_counterexample :
    pyStrip (("1;2;3").toList) ≠ [] ∧
    read_ecg_file [("1;2;3").toList] = ([], []) := by decide

/-- C4 (amended): `read_ecg_file` retains exactly the non-empty lines
that split into exactly two `;`-fields with both fields parsing as
Python ints, and skips all others; a warning is printed only for skipped
lines that do have exactly two `;`-fields (an int-parse failure) — lines
with the wrong field count are skipped silently; at the record level the
empty-DataFrame skip fires if and only if the parsed sample sequence is
empty. -/
theorem read_ecg_file_line_policy (lines : List Line) (sample_frequency : Nat) :
    (read_ecg_file lines).1 = lines.filterMap parse_line ∧
    (read_ecg_file lines).2 = lines.filterMap warn_line ∧
    (recordOutcome sample_frequency lines = RecordOutcome.emptySkip ↔
      (read_ecg_file lines).1 = []) := by
  refine ⟨by rw [read_ecg_file_eq], by rw [read_ecg_file_eq], ?_⟩
  unfold recordOutcome
  by_cases hdf : (read_ecg_file lines).1.isEmpty
  · simp only [hdf, if_true]
    simp [List.isEmpty_iff] at hdf
    simp [hdf]
  · simp only [hdf, if_false]
    simp [List.isEmpty_iff] at hdf
    rcases hsplit : split_into_segments (read_ecg_file lines).1 sample_frequency 10 with e | ⟨segs, d⟩
    · cases e
      simp [hdf]
    · by_cases hs : segs.isEmpty <;> simp [hs, hdf]

lemma split_into_segments_ok (df : List Sample) (sf dur : Nat) (hk : sf * dur ≠ 0) :
    split_into_segments df sf dur = Except.ok
      ((List.range (df.length / (sf * dur))).map
        (fun i => mkSegment sf ((df.drop (i * (sf * dur))).take (sf * dur))),
       if df.length - df.length / (sf * dur) * (sf * dur) > 0
         then some (df.length - df.length / (sf * dur) * (sf * dur)) else none) := by
  unfold split_into_segments
  simp [hk]

lemma split_into_segments_ok_inv {df : List Sample} {sf dur : Nat}
    {segs : List (List TimedSample)} {disc : Option Nat}
    (h : split_into_segments df sf dur = Except.ok (segs, disc)) :
    sf * dur ≠ 0 ∧
    segs = (List.range (df.length / (sf * dur))).map
      (fun i => mkSegment sf ((df.drop (i * (sf * dur))).take (sf * dur))) ∧
    disc = (if df.length - df.length / (sf * dur) * (sf * dur) > 0
      then some (df.length - df.length / (sf * dur) * (sf * dur)) else none) := by
  by_cases hk : sf * dur = 0
  · rw [split_into_segments] at h
    simp [hk] at h
  · rw [split_into_segments_ok df sf dur hk] at h
    have h' := Except.ok.inj h
    exact ⟨hk, (Prod.ext_iff.mp h').1.symm, (Prod.ext_iff.mp h').2.symm⟩

lemma mul_succ_le_of_lt_div {n k i : Nat} (hi : i < n / k) : (i + 1) * k ≤ n :=
  le_trans (Nat.mul_le_mul_right k hi) (Nat.div_mul_le_self n k)

lemma chunk_length {df : List Sample} {k i : Nat} (h : (i + 1) * k ≤ df.length) :
    ((df.drop (i * k)).take k).length = k := by
  simp only [List.length_take, List.length_drop]
  have : i * k + k ≤ df.length := by rw [Nat.succ_mul] at h; exact h
  omega

lemma mkSegment_length (sf : Nat) (chunk : List Sample) :
    (mkSegment sf chunk).length = chunk.length := by
  cases chunk <;> simp [mkSegment]

lemma mkSegment_values (sf : Nat) (chunk : List Sample) :
    (mkSegment sf chunk).map TimedSample.value = chunk.map Sample.value := by
  cases chunk <;> simp [mkSegment]

lemma remaining_eq_mod (n k : Nat) : n - n / k * k = n % k := by
  have hdm := Nat.div_add_mod n k
  refine Nat.sub_eq_of_eq_add ?_
  rw [Nat.mul_comm (n / k) k]
  linarith

lemma chunks_flatten (df : List Sample) (k : Nat) :
    ∀ num, num * k ≤ df.length →
      ((List.range num).map (fun i => (df.drop (i * k)).take k)).flatten =
        df.take (num * k) := by
  intro num
  induction num with
  | zero => simp
  | succ m ih =>
      intro h
      rw [List.range_succ, List.map_append, List.flatten_append]
      have hm : m * k ≤ df.length :=
        le_trans (Nat.mul_le_mul_right k (Nat.le_succ m)) h
      rw [ih hm]
      simp only [List.map_cons, List.map_nil, List.flatten_cons, List.flatten_nil,
        List.append_nil]
      rw [show (m + 1) * k = m * k + k by ring, List.take_add]

/-- C1: for any input of length `N` and any `samples_per_segment =
sample_frequency × segment_duration ≥ 1`, `split_into_segments` returns
exactly `⌊N/k⌋` segments of exactly `k` samples each, the `i`-th holding
the input values at positions `[i·k, (i+1)·k)` in source order; their
concatenation is the prefix of length `⌊N/k⌋·k`, so segments cover the
input in order without overlap; the trailing `N mod k` samples are in no
segment and are reported as the discarded count (no report when the
remainder is zero). -/
theorem split_into_segments_windowing (df : List Sample) (sf dur : Nat)
    (h : 1 ≤ sf * dur) :
    ∃ segs disc, split_into_segments df sf dur = Except.ok (segs, disc) ∧
      segs.length = df.length / (sf * dur) ∧
      (∀ i, ∀ hi : i < segs.length,
        (segs.get ⟨i, hi⟩).length = sf * dur ∧
        (segs.get ⟨i, hi⟩).map TimedSample.value =
          ((df.drop (i * (sf * dur))).take (sf * dur)).map Sample.value) ∧
      segs.flatten.map TimedSample.value =
        (df.take (df.length / (sf * dur) * (sf * dur))).map Sample.value ∧
      disc = (if df.length % (sf * dur) = 0 then none
        else some (df.length % (sf * dur))) := by
  have hk : sf * dur ≠ 0 := by omega
  refine ⟨_, _, split_into_segments_ok df sf dur hk, ?_, ?_, ?_, ?_⟩
  · simp
  · intro i hi
    simp only [List.length_map, List.length_range] at hi
    have hik := @mul_succ_le_of_lt_div df.length (sf * dur) i hi
    constructor
    · rw [List.get_eq_getElem, List.getElem_map, mkSegment_length, List.getElem_range,
        chunk_length hik]
    · rw [List.get_eq_getElem, List.getElem_map, List.getElem_range, mkSegment_values]
  · rw [List.map_flatten]
    have hcongr : (List.map (List.map TimedSample.value)
          ((List.range (df.length / (sf * dur))).map
            (fun i => mkSegment sf ((df.drop (i * (sf * dur))).take (sf * dur))))) =
        (List.range (df.length / (sf * dur))).map
            (fun i => ((df.drop (i * (sf * dur))).take (sf * dur)).map Sample.value) := by
      rw [List.map_map]
      exact List.map_congr_left (fun a _ => mkSegment_values sf _)
    rw [hcongr]
    rw [show (fun i => ((df.drop (i * (sf * dur))).take (sf * dur)).map Sample.value) =
        (List.map Sample.value ∘ fun i => (df.drop (i * (sf * dur))).take (sf * dur))
      from rfl]
    rw [← List.map_map, ← List.map_flatten,
      chunks_flatten df (sf * dur) (df.length / (sf * dur)) (Nat.div_mul_le_self _ _)]
  · rw [remaining_eq_mod]
    rcases Nat.eq_zero_or_pos (df.length % (sf * dur)) with hz | hz
    · simp [hz]
    · rw [if_pos hz, if_neg (by omega)]

theorem split_into_segments_windowing_witness :
    ∃ segs disc,
      split_into_segments [⟨0, 7⟩, ⟨1, 8⟩, ⟨2, 9⟩] 1 2 = Except.ok (segs, disc) ∧
      segs.length = ([⟨0, 7⟩, ⟨1, 8⟩, ⟨2, 9⟩] : List Sample).length / (1 * 2) ∧
      (∀ i, ∀ hi : i < segs.length,
        (segs.get ⟨i, hi⟩).length = 1 * 2 ∧
        (segs.get ⟨i, hi⟩).map TimedSample.value =
          ((([⟨0, 7⟩, ⟨1, 8⟩, ⟨2, 9⟩] : List Sample).drop (i * (1 * 2))).take (1 * 2)).map
            Sample.value) ∧
      segs.flatten.map TimedSample.value =
        (([⟨0, 7⟩, ⟨1, 8⟩, ⟨2, 9⟩] : List Sample).take
          (([⟨0, 7⟩, ⟨1, 8⟩, ⟨2, 9⟩] : List Sample).length / (1 * 2) * (1 * 2))).map
          Sample.value ∧
      disc = (if ([⟨0, 7⟩, ⟨1, 8⟩, ⟨2, 9⟩] : List Sample).length % (1 * 2) = 0 then none
        else some (([⟨0, 7⟩, ⟨1, 8⟩, ⟨2, 9⟩] : List Sample).length % (1 * 2))) :=
  split_into_segments_windowing [⟨0, 7⟩, ⟨1, 8⟩, ⟨2, 9⟩] 1 2 (by decide)

lemma chunk_getElem (df : List Sample) (a k j : Nat)
    (hj : j < ((df.drop a).take k).length) (hb : a + j < df.length) :
    ((df.drop a).take k)[j] = df[a + j] := by
  rw [List.getElem_take, List.getElem_drop]

lemma mkSegment_getElem (sf : Nat) (chunk : List Sample) (j : Nat)
    (hj : j < chunk.length) (h0 : 0 < chunk.length)
    (hj' : j < (mkSegment sf chunk).length) :
    (mkSegment sf chunk)[j] =
      ⟨((chunk[j]).index : ℚ) * (1 / (sf : ℚ))
          - ((chunk[0]).index : ℚ) * (1 / (sf : ℚ)),
        (chunk[j]).value⟩ := by
  cases chunk with
  | nil => exact absurd hj (by simp)
  | cons s0 rest =>
      simp only [mkSegment, List.getElem_map]
      rfl

lemma split_segs_getElem {df : List Sample} {sf dur : Nat}
    {segs : List (List TimedSample)} {disc : Option Nat}
    (h : split_into_segments df sf dur = Except.ok (segs, disc))
    (i : Nat) (hi : i < segs.length) :
    segs[i] = mkSegment sf ((df.drop (i * (sf * dur))).take (sf * dur)) ∧
    i < df.length / (sf * dur) ∧ sf * dur ≠ 0 := by
  obtain ⟨hk, hsegs, -⟩ := split_into_segments_ok_inv h
  subst hsegs
  have hi' : i < df.length / (sf * dur) := by simpa using hi
  refine ⟨?_, hi', hk⟩
  rw [List.getElem_map, List.getElem_range]

/-- C2 counterexample: on the input whose index column jumps from 0 to 2
(a gap), with `samples_per_segment = 2` at 1 Hz, the produced segment's
two successive relative times are 0 and 2, so their difference is not
`1/sampling_frequency = 1` — refuting the claim for inputs whose index
column contains gaps. -/
theorem split_into_segments_time_step_counterexample :
    ¬ (∀ (segs : List (List TimedSample)) (disc : Option Nat),
        split_into_segments [⟨0, 10⟩, ⟨2, 20⟩] 1 2 = Except.ok (segs, disc) →
        ∀ seg ∈ segs, ∀ j, ∀ hj : j + 1 < seg.length,
          (seg.get ⟨j + 1, hj⟩).time - (seg.get ⟨j, Nat.lt_of_succ_lt hj⟩).time
            = 1 / ((1 : Nat) : ℚ)) := by
  intro hcl
  have hsplit : split_into_segments [⟨0, 10⟩, ⟨2, 20⟩] 1 2 =
      Except.ok ([[⟨0, 10⟩, ⟨2, 20⟩]], none) := by
    simp [split_into_segments, mkSegment, List.range_succ]
  have h2 := hcl [[⟨0, 10⟩, ⟨2, 20⟩]] none hsplit [⟨0, 10⟩, ⟨2, 20⟩] (by simp) 0
    (by simp)
  norm_num [List.get] at h2

/-- C2 (amended): for every segment produced by `split_into_segments`,
the first relative-time entry is exactly 0; and provided the source index
column increases by exactly 1 between successive samples (no gaps),
successive relative times within every segment differ by exactly
`1/sample_frequency`.  (With gaps in the index column the step equals the
index gap times `1/sample_frequency`, not `1/sample_frequency` — see the
counterexample.) -/
theorem split_into_segments_time_rebasing (df : List Sample) (sf dur : Nat)
    (segs : List (List TimedSample)) (disc : Option Nat)
    (h : split_into_segments df sf dur = Except.ok (segs, disc)) :
    (∀ seg ∈ segs, ∃ h0 : 0 < seg.length, (seg.get ⟨0, h0⟩).time = 0) ∧
    ((∀ m, ∀ hm : m + 1 < df.length,
        (df.get ⟨m + 1, hm⟩).index = (df.get ⟨m, Nat.lt_of_succ_lt hm⟩).index + 1) →
      ∀ seg ∈ segs, ∀ j, ∀ hj : j + 1 < seg.length,
        (seg.get ⟨j + 1, hj⟩).time - (seg.get ⟨j, Nat.lt_of_succ_lt hj⟩).time
          = 1 / (sf : ℚ)) := by
  constructor
  · intro seg hseg
    obtain ⟨⟨i, hi⟩, rfl⟩ := List.get_of_mem hseg
    simp only [List.get_eq_getElem]
    obtain ⟨hget, hilt, hk⟩ := split_segs_getElem h i hi
    have hchunk := @chunk_length df (sf * dur) i
      (@mul_succ_le_of_lt_div df.length (sf * dur) i hilt)
    have hcl : 0 < ((df.drop (i * (sf * dur))).take (sf * dur)).length := by omega
    have hlen : 0 < segs[i].length := by
      rw [hget, mkSegment_length]; omega
    refine ⟨hlen, ?_⟩
    simp only [hget]
    rw [mkSegment_getElem sf _ 0 (by omega) hcl (by rw [mkSegment_length]; omega)]
    ring
  · intro hconsec seg hseg j hj
    obtain ⟨⟨i, hi⟩, rfl⟩ := List.get_of_mem hseg
    simp only [List.get_eq_getElem] at hj ⊢
    simp only [List.get_eq_getElem] at hconsec
    obtain ⟨hget, hilt, hk⟩ := split_segs_getElem h i hi
    have hik := @mul_succ_le_of_lt_div df.length (sf * dur) i hilt
    have hchunk := @chunk_length df (sf * dur) i hik
    have hj' : j + 1 < segs[i].length := hj
    rw [hget, mkSegment_length, hchunk] at hj'
    have hj1 : j + 1 < ((df.drop (i * (sf * dur))).take (sf * dur)).length := by omega
    have hj0 : j < ((df.drop (i * (sf * dur))).take (sf * dur)).length := by omega
    have hcl : 0 < ((df.drop (i * (sf * dur))).take (sf * dur)).length := by omega
    have hb1 : i * (sf * dur) + j + 1 < df.length := by
      rw [Nat.succ_mul] at hik; omega
    have hb0 : i * (sf * dur) + j < df.length := by omega
    simp only [hget]
    rw [mkSegment_getElem sf _ (j + 1) hj1 hcl (by rw [mkSegment_length]; omega),
      mkSegment_getElem sf _ j hj0 hcl (by rw [mkSegment_length]; omega),
      chunk_getElem df (i * (sf * dur)) (sf * dur) (j + 1) hj1 (by omega),
      chunk_getElem df (i * (sf * dur)) (sf * dur) j hj0 hb0]
    have hstep := hconsec (i * (sf * dur) + j) hb1
    simp only [← Nat.add_assoc]
    rw [hstep]
    push_cast
    ring

theorem split_into_segments_time_rebasing_witness :
    (∀ seg ∈ [[(⟨0, 7⟩ : TimedSample), ⟨1/2, 8⟩]],
      ∃ h0 : 0 < seg.length, (seg.get ⟨0, h0⟩).time = 0) ∧
    ((∀ m, ∀ hm : m + 1 < ([⟨0, 7⟩, ⟨1, 8⟩, ⟨2, 9⟩] : List Sample).length,
        (([⟨0, 7⟩, ⟨1, 8⟩, ⟨2, 9⟩] : List Sample).get ⟨m + 1, hm⟩).index =
          (([⟨0, 7⟩, ⟨1, 8⟩, ⟨2, 9⟩] : List Sample).get
            ⟨m, Nat.lt_of_succ_lt hm⟩).index + 1) →
      ∀ seg ∈ [[(⟨0, 7⟩ : TimedSample), ⟨1/2, 8⟩]], ∀ j, ∀ hj : j + 1 < seg.length,
        (seg.get ⟨j + 1, hj⟩).time - (seg.get ⟨j, Nat.lt_of_succ_lt hj⟩).time
          = 1 / ((2 : Nat) : ℚ)) :=
  split_into_segments_time_rebasing [⟨0, 7⟩, ⟨1, 8⟩, ⟨2, 9⟩] 2 1
    [[⟨0, 7⟩, ⟨1/2, 8⟩]] (some 1)
    (by simp [split_into_segments, mkSegment, List.range_succ])

/-- C7: every relative-time entry of every segment equals
`(original_index − original_index_of_first_sample_in_segment) /
sample_frequency`, for arbitrary source index columns — gaps and
non-zero start offsets included. -/
theorem segment_relative_time_formula (df : List Sample) (sf dur : Nat)
    (segs : List (List TimedSample)) (disc : Option Nat) (i j : Nat)
    (h : split_into_segments df sf dur = Except.ok (segs, disc))
    (hi : i < segs.length) (hj : j < (segs.get ⟨i, hi⟩).length)
    (hb : i * (sf * dur) + j < df.length) (hb0 : i * (sf * dur) < df.length) :
    ((segs.get ⟨i, hi⟩).get ⟨j, hj⟩).time =
      (((df.get ⟨i * (sf * dur) + j, hb⟩).index : ℚ)
        - ((df.get ⟨i * (sf * dur), hb0⟩).index : ℚ)) / (sf : ℚ) := by
  simp only [List.get_eq_getElem] at hj ⊢
  obtain ⟨hget, hilt, hk⟩ := split_segs_getElem h i hi
  have hik := @mul_succ_le_of_lt_div df.length (sf * dur) i hilt
  have hchunk := @chunk_length df (sf * dur) i hik
  have hj'' : j < segs[i].length := hj
  rw [hget, mkSegment_length, hchunk] at hj''
  have hj0 : j < ((df.drop (i * (sf * dur))).take (sf * dur)).length := by omega
  have h00 : 0 < ((df.drop (i * (sf * dur))).take (sf * dur)).length := by omega
  simp only [hget]
  rw [mkSegment_getElem sf _ j hj0 h00 (by rw [mkSegment_length]; omega),
    chunk_getElem df (i * (sf * dur)) (sf * dur) j hj0 hb,
    chunk_getElem df (i * (sf * dur)) (sf * dur) 0 h00 (by omega)]
  simp only [Nat.add_zero]
  rw [one_div, div_eq_mul_inv]
  ring

theorem segment_relative_time_formula_witness :
    ∃ segs disc, split_into_segments [⟨5, 7⟩, ⟨9, 8⟩] 2 1 = Except.ok (segs, disc) ∧
    ∃ hi : 0 < segs.length, ∃ hj : 1 < (segs.get ⟨0, hi⟩).length,
    ∃ hb : 0 * (2 * 1) + 1 < ([⟨5, 7⟩, ⟨9, 8⟩] : List Sample).length,
    ∃ hb0 : 0 * (2 * 1) < ([⟨5, 7⟩, ⟨9, 8⟩] : List Sample).length,
      ((segs.get ⟨0, hi⟩).get ⟨1, hj⟩).time =
        (((([⟨5, 7⟩, ⟨9, 8⟩] : List Sample).get ⟨0 * (2 * 1) + 1, hb⟩).index : ℚ)
          - ((([⟨5, 7⟩, ⟨9, 8⟩] : List Sample).get ⟨0 * (2 * 1), hb0⟩).index : ℚ))
          / ((2 : Nat) : ℚ) := by
  refine ⟨[[⟨0, 7⟩, ⟨2, 8⟩]], none, ?hs, by decide, by decide, by decide, by decide, ?_⟩
  case hs => simp [split_into_segments, mkSegment, List.range_succ]; norm_num
  exact segment_relative_time_formula [⟨5, 7⟩, ⟨9, 8⟩] 2 1 [[⟨0, 7⟩, ⟨2, 8⟩]] none 0 1
    (by simp [split_into_segments, mkSegment, List.range_succ]; norm_num)
    (by decide) (by decide) (by decide) (by decide)

/-- The outputs produced by the writing loop when the counter starts at
`c`: segment `j` is written under counter value `c + j`. -/
def enumFrom (c : Nat) : List (List TimedSample) → List Output
  | [] => []
  | s :: rest => ⟨c, segFileName c, s⟩ :: enumFrom (c + 1) rest

lemma writeSegments_spec (segs : List (List TimedSample)) :
    ∀ st : PState,
      (writeSegments st segs).counter = st.counter + segs.length ∧
      (writeSegments st segs).outputs = st.outputs ++ enumFrom st.counter segs ∧
      (writeSegments st segs).total_segments = st.total_segments ∧
      (writeSegments st segs).total_files_processed = st.total_files_processed ∧
      (writeSegments st segs).caught = st.caught := by
  induction segs with
  | nil =>
      intro st
      exact ⟨rfl, by simp [writeSegments, enumFrom], rfl, rfl, rfl⟩
  | cons s rest ih =>
      intro st
      have hstep : writeSegments st (s :: rest) =
          writeSegments
            { st with
              counter := st.counter + 1,
              outputs := st.outputs ++ [⟨st.counter, segFileName st.counter, s⟩] }
            rest := rfl
      obtain ⟨w1, w2, w3, w4, w5⟩ := ih
        { st with
          counter := st.counter + 1,
          outputs := st.outputs ++ [⟨st.counter, segFileName st.counter, s⟩] }
      rw [hstep]
      refine ⟨?_, ?_, w3, w4, w5⟩
      · rw [w1]; simp only [List.length_cons]; omega
      · rw [w2]; simp [enumFrom, List.append_assoc]

lemma enumFrom_length (l : List (List TimedSample)) :
    ∀ c, (enumFrom c l).length = l.length := by
  induction l with
  | nil => intro c; rfl
  | cons s rest ih => intro c; simp [enumFrom, ih]

lemma enumFrom_seqNums (l : List (List TimedSample)) :
    ∀ c, (enumFrom c l).map Output.seqNum = (List.range l.length).map (c + ·) := by
  induction l with
  | nil => intro c; rfl
  | cons s rest ih =>
      intro c
      simp only [enumFrom, List.map_cons, ih (c + 1), List.length_cons,
        List.range_succ_eq_map, List.map_map]
      congr 1
      exact List.map_congr_left (fun a _ => by simp [Function.comp]; omega)

lemma enumFrom_filenames (l : List (List TimedSample)) :
    ∀ c, (enumFrom c l).map Output.filename =
      (enumFrom c l).map (fun o => segFileName o.seqNum) := by
  induction l with
  | nil => intro c; rfl
  | cons s rest ih => intro c; simp [enumFrom, ih (c + 1)]

/-- The numbering invariant maintained by the free-text batch loop. -/
def PInv (st : PState) : Prop :=
  st.counter = st.outputs.length ∧
  st.outputs.map Output.seqNum = List.range st.outputs.length ∧
  st.outputs.map Output.filename = st.outputs.map (fun o => segFileName o.seqNum)

lemma processRecord_inv (sf : Nat) (input : Except Line (List Line))
    (st : PState) (h : PInv st) : PInv (processRecord sf st input) := by
  obtain ⟨h1, h2, h3⟩ := h
  cases input with
  | error e => exact ⟨h1, h2, h3⟩
  | ok lines =>
      rcases hro : recordOutcome sf lines with _ | m | _ | segs <;>
        simp only [processRecord, hro]
      · exact ⟨h1, h2, h3⟩
      · exact ⟨h1, h2, h3⟩
      · exact ⟨h1, h2, h3⟩
      · obtain ⟨w1, w2, w3, w4, w5⟩ := writeSegments_spec segs st
        refine ⟨?_, ?_, ?_⟩
        · show (writeSegments st segs).counter = (writeSegments st segs).outputs.length
          rw [w1, w2]
          simp [enumFrom_length, h1]
        · show (writeSegments st segs).outputs.map Output.seqNum =
            List.range (writeSegments st segs).outputs.length
          rw [w2]
          simp only [List.map_append, h2, enumFrom_seqNums, h1,
            List.length_append, enumFrom_length]
          rw [List.range_add]
        · show (writeSegments st segs).outputs.map Output.filename =
            (writeSegments st segs).outputs.map (fun o => segFileName o.seqNum)
          rw [w2]
          simp only [List.map_append, h3, enumFrom_filenames]

lemma foldl_processRecord_inv (sf : Nat) (inputs : List (Except Line (List Line))) :
    ∀ st, PInv st → PInv (inputs.foldl (processRecord sf) st) := by
  induction inputs with
  | nil => exact fun st h => h
  | cons i rest ih =>
      intro st h
      exact ih _ (processRecord_inv sf i st h)

/-- C3: across a whole run of the free-text pipeline the sequence numbers
assigned at write time are exactly `0, 1, 2, …` in write order (record
order outer, segment order inner) — contiguous, no gaps or repeats,
strictly increasing; the counter equals the number of written files, so
each written segment consumed exactly one counter value; and every output
file is named from the 5-digit zero-padded value of the counter it
consumed. -/
theorem process_ecg_files_global_numbering (sf : Nat)
    (inputs : List (Except Line (List Line))) :
    (process_ecg_files sf inputs).counter =
      (process_ecg_files sf inputs).outputs.length ∧
    (process_ecg_files sf inputs).outputs.map Output.seqNum =
      List.range (process_ecg_files sf inputs).outputs.length ∧
    (process_ecg_files sf inputs).outputs.map Output.filename =
      (process_ecg_files sf inputs).outputs.map (fun o => segFileName o.seqNum) :=
  foldl_processRecord_inv sf inputs ⟨0, 0, 0, [], []⟩ ⟨rfl, rfl, rfl⟩

/-- C9: a record that parses to an empty sample sequence, or that yields
zero complete segments, is skipped atomically — the returned state (the
global counter, both statistics, the written outputs, and even the log)
is exactly the state before the record. -/
theorem empty_record_atomic_skip (sf : Nat) (st : PState) (lines : List Line)
    (h : (read_ecg_file lines).1 = [] ∨
      ∃ d, split_into_segments (read_ecg_file lines).1 sf 10 = Except.ok ([], d)) :
    processRecord sf st (Except.ok lines) = st := by
  have hro : recordOutcome sf lines = RecordOutcome.emptySkip ∨
      recordOutcome sf lines = RecordOutcome.noSegmentsSkip := by
    unfold recordOutcome
    rcases h with h | ⟨d, h⟩
    · left; simp [h]
    · by_cases hdf : (read_ecg_file lines).1.isEmpty
      · left; simp [hdf]
      · right; simp [hdf, h]
  rcases hro with hro | hro <;> simp [processRecord, hro]

theorem empty_record_atomic_skip_witness :
    processRecord 500 ⟨0, 0, 0, [], []⟩ (Except.ok [("5;1").toList]) =
      ⟨0, 0, 0, [], []⟩ :=
  empty_record_atomic_skip 500 ⟨0, 0, 0, [], []⟩ [("5;1").toList]
    (Or.inr ⟨some 1, by decide⟩)

/-- C6 counterexample: with sampling frequency 0 the computed
`samples_per_segment` is 0 < 1, yet the Segmenter fails with
`ZeroDivisionError` (there is no `ConfigurationError` check in the code),
and a free-text batch of two parseable records still processes both
records — each raises inside the loop and is caught at the per-record
handler — instead of the run aborting before any record is processed. -/
theorem split_into_segments_no_configuration_check :
    split_into_segments [⟨0, 1⟩] 0 10 = Except.error SplitError.zeroDivision ∧
    process_ecg_files 0 [Except.ok [("0;1").toList], Except.ok [("0;2").toList]] =
      ⟨0, 0, 0, [], [("ZeroDivisionError").toList, ("ZeroDivisionError").toList]⟩ := by
  constructor
  · decide
  · decide

/-- C6 (amended): `samples_per_segment = sample_frequency ×
segment_duration`, an integer product (so the floor is implicit).  The
Segmenter performs no `≥ 1` validation: when the product is 0 the
integer division raises `ZeroDivisionError`; in the free-text
orchestrator this error is raised per record inside the `try` block and
caught by the per-record handler (on any record whose parse is
non-empty), so the run is not aborted before processing.  Only the
structured pipeline validates configuration before any record is
processed: a sampling frequency other than 500 or 100 raises
`ValueError` at the `records_folder` selection. -/
theorem configuration_failure_behavior (df : List Sample) (sf dur : Nat)
    (st : PState) (lines : List Line) (f : Nat)
    (h0 : sf * dur = 0) (hne : ¬ (read_ecg_file lines).1 = [])
    (h500 : f ≠ 500) (h100 : f ≠ 100) :
    split_into_segments df sf dur = Except.error SplitError.zeroDivision ∧
    processRecord 0 st (Except.ok lines) =
      { st with caught := st.caught ++ [("ZeroDivisionError").toList] } ∧
    records_folder f = Except.error ((("Sample frequency ").toList)
      ++ natDecimal f ++ ((" not supported. Use 100 or 500.").toList)) := by
  refine ⟨?_, ?_, ?_⟩
  · unfold split_into_segments
    simp [h0]
  · have hsp : split_into_segments (read_ecg_file lines).1 0 10 =
        Except.error SplitError.zeroDivision := by
      unfold split_into_segments
      simp
    have hro : recordOutcome 0 lines =
        RecordOutcome.errorCaught (("ZeroDivisionError").toList) := by
      unfold recordOutcome
      rw [if_neg (by simpa [List.isEmpty_iff] using hne), hsp]
    simp [processRecord, hro]
  · unfold records_folder
    rw [if_neg h500, if_neg h100]

theorem configuration_failure_behavior_witness :
    split_into_segments [⟨0, 1⟩] 0 10 = Except.error SplitError.zeroDivision ∧
    processRecord 0 ⟨0, 0, 0, [], []⟩ (Except.ok [("0;1").toList]) =
      { (⟨0, 0, 0, [], []⟩ : PState) with
        caught := ([] : List Line) ++ [("ZeroDivisionError").toList] } ∧
    records_folder 250 = Except.error ((("Sample frequency ").toList)
      ++ natDecimal 250 ++ ((" not supported. Use 100 or 500.").toList)) :=
  configuration_failure_behavior [⟨0, 1⟩] 0 10 ⟨0, 0, 0, [], []⟩
    [("0;1").toList] 250 (by decide) (by decide) (by decide) (by decide)

lemma ptb_process_ok {row : PtbRecord} {rec : WfdbResult}
    (h : row.load = Except.ok rec) (st : PtbState) :
    ptb_process st row =
      { st with
        successful := st.successful + 1,
        outputs := st.outputs ++ [goodOutput row] } := by
  unfold ptb_process goodOutput
  rw [h]

lemma ptb_process_err {row : PtbRecord} {e : Line}
    (h : row.load = Except.error e) (st : PtbState) :
    ptb_process st row =
      { st with
        failed := st.failed + 1,
        errors := st.errors ++ [⟨row.ecg_id, row.filename_path, e⟩] } := by
  unfold ptb_process
  rw [h]

lemma ptb_fold_goods (goods : List PtbRecord) :
    ∀ st : PtbState, (∀ r ∈ goods, (r.load).isOk) →
      goods.foldl ptb_process st =
        { st with
          successful := st.successful + goods.length,
          outputs := st.outputs ++ goods.map goodOutput } := by
  induction goods with
  | nil => intro st _; simp
  | cons r rest ih =>
      intro st hall
      have hr : (r.load).isOk := hall r (by simp)
      obtain ⟨rec, hrec⟩ : ∃ rec, r.load = Except.ok rec := by
        rcases hload : r.load with e | v
        · rw [hload] at hr; exact absurd hr (by simp [Except.isOk, Except.toBool])
        · exact ⟨v, rfl⟩
      rw [List.foldl_cons, ptb_process_ok hrec,
        ih _ (fun x hx => hall x (by simp [hx])), PtbState.mk.injEq]
      exact ⟨by simp only [List.length_cons]; omega, rfl, rfl, by simp⟩

lemma processRecord_obs_congr (sf : Nat) (inp : Except Line (List Line)) :
    ∀ st₁ st₂ : PState, st₁.obs = st₂.obs →
      (processRecord sf st₁ inp).obs = (processRecord sf st₂ inp).obs := by
  intro st₁ st₂ h
  obtain ⟨hc, hts, htf, hout⟩ : st₁.counter = st₂.counter ∧
      st₁.total_segments = st₂.total_segments ∧
      st₁.total_files_processed = st₂.total_files_processed ∧
      st₁.outputs = st₂.outputs := by
    simpa [PState.obs, Prod.ext_iff] using h
  cases inp with
  | error e => simp [processRecord, PState.obs, hc, hts, htf, hout]
  | ok lines =>
      rcases hro : recordOutcome sf lines with _ | m | _ | segs <;>
        simp only [processRecord, hro]
      · exact h
      · simp [PState.obs, hc, hts, htf, hout]
      · exact h
      · obtain ⟨w1a, w2a, w3a, w4a, -⟩ := writeSegments_spec segs st₁
        obtain ⟨w1b, w2b, w3b, w4b, -⟩ := writeSegments_spec segs st₂
        simp [PState.obs, w1a, w2a, w3a, w4a, w1b, w2b, w3b, w4b, hc, hts, htf, hout]

lemma foldl_obs_congr (sf : Nat) (inputs : List (Except Line (List Line))) :
    ∀ st₁ st₂ : PState, st₁.obs = st₂.obs →
      ((inputs.foldl (processRecord sf) st₁).obs =
        (inputs.foldl (processRecord sf) st₂).obs) := by
  induction inputs with
  | nil => exact fun _ _ h => h
  | cons i rest ih =>
      intro st₁ st₂ h
      exact ih _ _ (processRecord_obs_congr sf i st₁ st₂ h)

lemma processRecord_error_obs (sf : Nat) (st : PState) (m : Line) :
    (processRecord sf st (Except.error m)).obs = st.obs := by
  simp [processRecord, PState.obs]

/-- C5: fault isolation.  In the structured pipeline, a batch consisting
of good records with one unreadable record in the middle processes every
other record to completion (each produces its output file), records the
faulty one as the single entry of the error report, and the final counts
satisfy `successful = total − failed` with `failed = 1`.  In the
free-text pipeline, inserting an unreadable record anywhere in a batch
leaves the observable batch result (counter, statistics, written files)
of the remaining records unchanged — the batch never aborts on one
record's failure. -/
theorem batch_fault_isolation
    (pre post : List PtbRecord) (bad : PtbRecord) (e : Line)
    (sf2 : Nat) (pre2 post2 : List (Except Line (List Line))) (m : Line)
    (hpre : ∀ r ∈ pre, (r.load).isOk) (hpost : ∀ r ∈ post, (r.load).isOk)
    (hbad : bad.load = Except.error e) :
    (ptb_run (pre ++ bad :: post)).successful = pre.length + post.length ∧
    (ptb_run (pre ++ bad :: post)).failed = 1 ∧
    (ptb_run (pre ++ bad :: post)).successful =
      (pre ++ bad :: post).length - (ptb_run (pre ++ bad :: post)).failed ∧
    (ptb_run (pre ++ bad :: post)).errors = [⟨bad.ecg_id, bad.filename_path, e⟩] ∧
    (ptb_run (pre ++ bad :: post)).outputs = (pre ++ post).map goodOutput ∧
    (process_ecg_files sf2 (pre2 ++ Except.error m :: post2)).obs =
      (process_ecg_files sf2 (pre2 ++ post2)).obs := by
  have hrun : ptb_run (pre ++ bad :: post) =
      { successful := pre.length + post.length, failed := 1,
        errors := [⟨bad.ecg_id, bad.filename_path, e⟩],
        outputs := (pre ++ post).map goodOutput } := by
    unfold ptb_run
    rw [List.foldl_append, List.foldl_cons, ptb_fold_goods pre _ hpre,
      ptb_process_err hbad, ptb_fold_goods post _ hpost, PtbState.mk.injEq]
    simp
  rw [hrun]
  refine ⟨rfl, rfl, ?_, rfl, rfl, ?_⟩
  · simp only [List.length_append, List.length_cons]
    omega
  · unfold process_ecg_files
    rw [List.foldl_append, List.foldl_append, List.foldl_cons]
    exact foldl_obs_congr sf2 post2 _ _ (processRecord_error_obs sf2 _ m)

/-- A loadable record used to instantiate the fault-isolation theorem. -/
def wGood1 : PtbRecord :=
  ⟨("1").toList, ("records500/00001_hr").toList,
    Except.ok ⟨[[(1 : ℚ)]], [("I").toList], 500⟩⟩

/-- A second loadable record used to instantiate the fault-isolation
theorem. -/
def wGood2 : PtbRecord :=
  ⟨("3").toList, ("records500/00003_hr").toList,
    Except.ok ⟨[], [("I").toList], 500⟩⟩

/-- A record whose signal load fails, used to instantiate the
fault-isolation theorem. -/
def wBad : PtbRecord :=
  ⟨("2").toList, ("records500/00002_hr").toList,
    Except.error (("file missing").toList)⟩

theorem batch_fault_isolation_witness :
    (ptb_run ([wGood1] ++ wBad :: [wGood2])).successful =
      [wGood1].length + [wGood2].length ∧
    (ptb_run ([wGood1] ++ wBad :: [wGood2])).failed = 1 ∧
    (ptb_run ([wGood1] ++ wBad :: [wGood2])).successful =
      ([wGood1] ++ wBad :: [wGood2]).length -
        (ptb_run ([wGood1] ++ wBad :: [wGood2])).failed ∧
    (ptb_run ([wGood1] ++ wBad :: [wGood2])).errors =
      [⟨wBad.ecg_id, wBad.filename_path, ("file missing").toList⟩] ∧
    (ptb_run ([wGood1] ++ wBad :: [wGood2])).outputs =
      ([wGood1] ++ [wGood2]).map goodOutput ∧
    (process_ecg_files 500
        ([] ++ Except.error (("boom").toList) :: [Except.ok [("0;1").toList]])).obs =
      (process_ecg_files 500 ([] ++ [Except.ok [("0;1").toList]])).obs :=
  batch_fault_isolation [wGood1] [wGood2] wBad (("file missing").toList)
    500 [] [Except.ok [("0;1").toList]] (("boom").toList)
    (by decide) (by decide) rfl

lemma set_append_last {α : Type} (h : List α) (a b : α) :
    (h ++ [a]).set h.length b = h ++ [b] := by
  induction h with
  | nil => rfl
  | cons x xs ih => simp [ih]

/-- The references handed out by `n` consecutive loop iterations when the
store has length `b` at entry: each iteration allocates two frames and
returns the second. -/
def refsFrom (b : Nat) : Nat → List Ref
  | 0 => []
  | n + 1 => (b + 1) :: refsFrom (b + 2) n

lemma refsFrom_length : ∀ n b, (refsFrom b n).length = n := by
  intro n
  induction n with
  | zero => intro b; rfl
  | succ m ih => intro b; simp [refsFrom, ih]

lemma refsFrom_mem : ∀ n b q, q ∈ refsFrom b n → b < q := by
  intro n
  induction n with
  | zero => intro b q hq; simp [refsFrom] at hq
  | succ m ih =>
      intro b q hq
      rcases List.mem_cons.mp hq with rfl | hq
      · omega
      · have := ih (b + 2) q hq
        omega

lemma refsFrom_nodup : ∀ n b, (refsFrom b n).Nodup := by
  intro n
  induction n with
  | zero => intro b; simp [refsFrom]
  | succ m ih =>
      intro b
      refine List.nodup_cons.mpr ⟨?_, ih (b + 2)⟩
      intro hmem
      have := refsFrom_mem m (b + 2) (b + 1) hmem
      omega

lemma refsFrom_getElem? : ∀ n b j, j < n → (refsFrom b n)[j]? = some (b + 2 * j + 1) := by
  intro n
  induction n with
  | zero => intro b j hj; omega
  | succ m ih =>
      intro b j hj
      cases j with
      | zero => simp [refsFrom]
      | succ jj =>
          have := ih (b + 2) jj (by omega)
          simp only [refsFrom, List.getElem?_cons_succ, this]
          congr 1
          omega

lemma flatMap_pair_getElem? {α : Type} (m o : Nat → α) :
    ∀ (l : List Nat) j (hj : j < l.length),
      (l.flatMap (fun i => [m i, o i]))[2 * j + 1]? = some (o (l.get ⟨j, hj⟩)) := by
  intro l
  induction l with
  | nil => intro j hj; exact absurd hj (by simp)
  | cons a rest ih =>
      intro j hj
      cases j with
      | zero => simp [List.flatMap_cons]
      | succ jj =>
          have hjj : jj < rest.length := by simpa using Nat.lt_of_succ_lt_succ hj
          have := ih jj hjj
          rw [show 2 * (jj + 1) + 1 = 2 * jj + 1 + 1 + 1 from by omega,
            List.flatMap_cons]
          show (m a :: o a :: rest.flatMap (fun i => [m i, o i]))[2 * jj + 1 + 1 + 1]? = _
          rw [List.getElem?_cons_succ, List.getElem?_cons_succ, this]
          rfl

lemma heapLoopBody_eq (df : List Sample) (sf k : Nat) (h : Heap)
    (refs : List Ref) (i : Nat) :
    heapLoopBody df sf k (h, refs) i =
      (h ++ [midCell df sf k i, outCell df sf k i], refs ++ [h.length + 1]) := by
  simp only [heapLoopBody, midCell, outCell, set_append_last, List.length_set,
    List.length_append, List.length_cons, List.length_nil]
  rw [List.append_assoc]
  rfl

lemma heapLoop_eq (df : List Sample) (sf k : Nat) :
    ∀ (is : List Nat) (h : Heap) (refs : List Ref),
      is.foldl (heapLoopBody df sf k) (h, refs) =
        (h ++ is.flatMap (fun i => [midCell df sf k i, outCell df sf k i]),
         refs ++ refsFrom h.length is.length) := by
  intro is
  induction is with
  | nil => intro h refs; simp [refsFrom]
  | cons i rest ih =>
      intro h refs
      rw [List.foldl_cons, heapLoopBody_eq, ih]
      refine Prod.ext ?_ ?_
      · simp [List.flatMap_cons, List.append_assoc]
      · simp only [List.length_append, List.length_cons, List.length_nil,
          List.length_cons, refsFrom, List.append_assoc]
        rfl

/-- C10: the segmentation loop never mutates its argument — every store
cell that existed before the call, the input frame at `p` included, reads
the same afterwards; the returned segment references are all fresh
(allocated past the old store end) and pairwise distinct, so the
segments are independent copies; and each returned reference holds
exactly the segment frame built from its slice of the input. -/
theorem split_into_segments_no_mutation (h : Heap) (p : Ref) (sf dur : Nat) :
    (∀ r, r < h.length →
      ((split_into_segments_heap h p sf dur).1)[r]? = h[r]?) ∧
    (∀ q ∈ (split_into_segments_heap h p sf dur).2, h.length ≤ q) ∧
    ((split_into_segments_heap h p sf dur).2).Nodup ∧
    (∀ df, h[p]? = some (Cell.raw df) →
      ∀ j, ∀ hj : j < ((split_into_segments_heap h p sf dur).2).length,
        ((split_into_segments_heap h p sf dur).1)[
            ((split_into_segments_heap h p sf dur).2).get ⟨j, hj⟩]? =
          some (outCell df sf (sf * dur) j)) := by
  rcases hcell : h[p]? with _ | c
  · have hrun : split_into_segments_heap h p sf dur = (h, []) := by
      simp [split_into_segments_heap, hcell]
    rw [hrun]
    exact ⟨fun r _ => rfl, by simp, List.nodup_nil, fun df hdf =>
      absurd hdf (by simp)⟩
  · cases c with
    | raw df =>
        by_cases hk : sf * dur = 0
        · have hrun : split_into_segments_heap h p sf dur = (h, []) := by
            simp [split_into_segments_heap, hcell, hk]
          rw [hrun]
          exact ⟨fun r _ => rfl, by simp, List.nodup_nil,
            fun df2 hdf j hj => absurd hj (by simp)⟩
        · have hfold : split_into_segments_heap h p sf dur =
              (List.range (df.length / (sf * dur))).foldl
                (heapLoopBody df sf (sf * dur)) (h, []) := by
            simp [split_into_segments_heap, hcell, hk]
          have hrun : split_into_segments_heap h p sf dur =
              (h ++ (List.range (df.length / (sf * dur))).flatMap
                  (fun i => [midCell df sf (sf * dur) i, outCell df sf (sf * dur) i]),
               refsFrom h.length (df.length / (sf * dur))) := by
            rw [hfold, heapLoop_eq]
            simp [List.length_range]
          rw [hrun]
          refine ⟨?_, ?_, ?_, ?_⟩
          · intro r hr
            exact List.getElem?_append_left hr
          · intro q hq
            exact Nat.le_of_lt (refsFrom_mem _ h.length q hq)
          · exact refsFrom_nodup _ h.length
          · intro df2 hdf j hj
            have hdf2 : df2 = df :=
              (Cell.raw.inj (Option.some.inj hdf)).symm
            rw [hdf2]
            rw [refsFrom_length] at hj
            have hjref : (refsFrom h.length (df.length / (sf * dur)))[j]? =
                some (h.length + 2 * j + 1) :=
              refsFrom_getElem? _ h.length j hj
            have hget : (refsFrom h.length (df.length / (sf * dur))).get
                ⟨j, by rw [refsFrom_length]; exact hj⟩ = h.length + 2 * j + 1 := by
              have h2 := List.getElem?_eq_getElem
                (show j < (refsFrom h.length (df.length / (sf * dur))).length by
                  rw [refsFrom_length]; exact hj)
              rw [List.get_eq_getElem]
              exact Option.some.inj (h2.symm.trans hjref)
            rw [hget, List.getElem?_append_right (by omega),
              show h.length + 2 * j + 1 - h.length = 2 * j + 1 from by omega,
              flatMap_pair_getElem? _ _ (List.range (df.length / (sf * dur))) j
                (by rwa [List.length_range])]
            rw [List.get_eq_getElem, List.getElem_range]
    | withTime rows =>
        have hrun : split_into_segments_heap h p sf dur = (h, []) := by
          simp [split_into_segments_heap, hcell]
        rw [hrun]
        exact ⟨fun r _ => rfl, by simp, List.nodup_nil, fun df hdf =>
          absurd (Option.some.inj hdf) (by simp)⟩
    | seg rows =>
        have hrun : split_into_segments_heap h p sf dur = (h, []) := by
          simp [split_into_segments_heap, hcell]
        rw [hrun]
        exact ⟨fun r _ => rfl, by simp, List.nodup_nil, fun df hdf =>
          absurd (Option.some.inj hdf) (by simp)⟩

theorem split_into_segments_no_mutation_witness :
    (∀ r, r < ([Cell.raw [⟨0, 1⟩, ⟨1, 2⟩]] : Heap).length →
      ((split_into_segments_heap [Cell.raw [⟨0, 1⟩, ⟨1, 2⟩]] 0 1 1).1)[r]? =
        ([Cell.raw [⟨0, 1⟩, ⟨1, 2⟩]] : Heap)[r]?) ∧
    (∀ q ∈ (split_into_segments_heap [Cell.raw [⟨0, 1⟩, ⟨1, 2⟩]] 0 1 1).2,
      ([Cell.raw [⟨0, 1⟩, ⟨1, 2⟩]] : Heap).length ≤ q) ∧
    ((split_into_segments_heap [Cell.raw [⟨0, 1⟩, ⟨1, 2⟩]] 0 1 1).2).Nodup ∧
    (∀ df, ([Cell.raw [⟨0, 1⟩, ⟨1, 2⟩]] : Heap)[(0 : Nat)]? = some (Cell.raw df) →
      ∀ j, ∀ hj : j < ((split_into_segments_heap [Cell.raw [⟨0, 1⟩, ⟨1, 2⟩]] 0 1 1).2).length,
        ((split_into_segments_heap [Cell.raw [⟨0, 1⟩, ⟨1, 2⟩]] 0 1 1).1)[
            ((split_into_segments_heap [Cell.raw [⟨0, 1⟩, ⟨1, 2⟩]] 0 1 1).2).get ⟨j, hj⟩]? =
          some (outCell df 1 (1 * 1) j)) :=
  split_into_segments_no_mutation [Cell.raw [⟨0, 1⟩, ⟨1, 2⟩]] 0 1 1
